import Mathlib

/-! pfinder: process lookup by path, PID, name or port.

A shallow embedding of `main.go`.  The operating system is an explicit value
(`OS`): every system call the program makes is a field of it.  Go's
`(int, error)` results are pairs `Int × Option Err`, with `none` for `nil`.
-/

namespace Pfinder

/-- A Go `error` value; `Option Err` is a possibly-nil error. -/
abbrev Err := String

/-- The part of `ps.Process` the program reads: `Pid()`, `PPid()`, `Executable()`. -/
structure Process where
  pid : Int
  ppid : Int
  executable : String
deriving DecidableEq, Repr

/-- An `fs.DirEntry` as returned by `os.ReadDir`: `Name()` and `IsDir()`. -/
structure DirEntry where
  name : String
  isDir : Bool
deriving DecidableEq, Repr

/-- A snapshot of the file system calls used by the scanners. -/
structure FS where
  /-- The call `os.ReadDir`. -/
  readDir : String → Except Err (List DirEntry)
  /-- The call `os.Readlink`. -/
  readlink : String → Except Err String

deriving instance DecidableEq for Except

/-- One row of `gopsutilnet.Connections("tcp")`: `Laddr.Port` and `Pid`. -/
structure Conn where
  port : Nat
  pid : Int
deriving DecidableEq, Repr

/-- The operating system as seen by one run of the program. -/
structure OS where
  /-- The constant `runtime.GOOS`. -/
  goos : String
  /-- The file system as seen while the program holds no descriptor of its own. -/
  fs : FS
  /-- The call `os.Stat`; on success the value of `IsDir()`. -/
  stat : String → Except Err Bool
  /-- The call `filepath.Abs`. -/
  abs : String → Except Err String
  /-- The call `os.Open`: it fails, or it succeeds and the file system is seen as
  the returned snapshot for as long as the descriptor is held (until the
  deferred `file.Close()`). -/
  openFile : String → Except Err FS
  /-- The call `gopsutilnet.Connections("tcp")`. -/
  connections : Except Err (List Conn)

/-! ## Library functions -/

/-- Go `strings.HasPrefix`. -/
def stringsHasPrefix (s pre : String) : Bool :=
  pre.data.isPrefixOf s.data

/-- Whether `sub` occurs in `s` as a contiguous run. -/
def containsChars (sub : List Char) : List Char → Bool
  | [] => sub.isEmpty
  | c :: cs => sub.isPrefixOf (c :: cs) || containsChars sub cs

/-- Go `strings.Contains`. -/
def stringsContains (s sub : String) : Bool :=
  containsChars sub.data s.data

/-- Go `strings.ToLower` restricted to ASCII: the letters `A` to `Z` are
lowered and every other character is kept, so this agrees with Go on ASCII
strings only (Go also lowers the non-ASCII Unicode letters). -/
def stringsToLower (s : String) : String :=
  ⟨s.data.map Char.toLower⟩

/-- Decimal value of a run of digit characters. -/
def digitsValue (ds : List Char) : Nat :=
  ds.foldl (fun acc c => acc * 10 + (c.toNat - 48)) 0

/-- Go `strconv.Atoi` on a 64-bit platform: an optional sign, then one or more
decimal digits, with a value that fits `int`; `none` is a non-nil error. -/
def atoi (s : String) : Option Int :=
  let signed : Bool × List Char :=
    match s.data with
    | '-' :: r => (true, r)
    | '+' :: r => (false, r)
    | r => (false, r)
  let ds := signed.2
  if ds.isEmpty then none
  else if ds.all Char.isDigit then
    let v : Int := if signed.1 then -(digitsValue ds : Int) else (digitsValue ds : Int)
    if -(2 : Int) ^ 63 ≤ v ∧ v < (2 : Int) ^ 63 then some v else none
  else none

/-- Go `strconv.Itoa` and the verb `%d`. -/
def itoa (n : Int) : String :=
  toString n

/-- Split a path at every `/`. -/
def splitSlash : List Char → List (List Char)
  | [] => [[]]
  | c :: cs =>
    if c = '/' then [] :: splitSlash cs
    else
      match splitSlash cs with
      | [] => [[c]]
      | w :: ws => (c :: w) :: ws

/-- One step of `filepath.Clean`: the stack of kept components, last one first. -/
def cleanStep (rooted : Bool) (stack : List (List Char)) (comp : List Char) : List (List Char) :=
  if comp = [] ∨ comp = ['.'] then stack
  else if comp = ['.', '.'] then
    match stack with
    | [] => if rooted then [] else [comp]
    | top :: rest => if top = ['.', '.'] then comp :: top :: rest else rest
  else comp :: stack

/-- Go `filepath.Clean` with separator `/`. -/
def filepathClean (p : List Char) : List Char :=
  let rooted := p.head? = some '/'
  let comps := ((splitSlash p).foldl (cleanStep rooted) []).reverse
  let body := List.intercalate ['/'] comps
  if rooted then '/' :: body
  else if body = [] then ['.'] else body

/-- Go `filepath.Join` with separator `/`: leading empty elements are dropped,
the rest is joined with `/` and cleaned; no non-empty element gives `""`. -/
def filepathJoin (elem : List String) : String :=
  match elem.dropWhile (fun e => e.data.isEmpty) with
  | [] => ""
  | es => ⟨filepathClean (List.intercalate ['/'] (es.map String.data))⟩

/-! ## The result map -/

/-- A Go `map[int]ps.Process`, as the list of its key/value pairs. -/
abbrev ResultMap := List (Int × Process)

/-- The assignment `results[pid] = proc`. -/
def mapSet (pid : Int) (proc : Process) : ResultMap → ResultMap
  | [] => [(pid, proc)]
  | (k, v) :: rest => if k = pid then (pid, proc) :: rest else (k, v) :: mapSet pid proc rest

/-- The read `results[pid]`, with its `ok` flag. -/
def mapGet (pid : Int) (m : ResultMap) : Option Process :=
  (m.find? (fun kv => kv.1 == pid)).map Prod.snd

/-- The keys of the map. -/
def mapKeys (m : ResultMap) : List Int :=
  m.map Prod.fst

/-! ## main.go -/

/-- Source `findProcessByPID`: the first process of the list with that PID. -/
def findProcessByPID (pid : Int) : List Process → Option Process
  | [] => none
  | p :: ps => if p.pid = pid then some p else findProcessByPID pid ps

/-- Source `handleString`: the PIDs whose executable contains `str`, ignoring
case, in process-list order. -/
def handleString (str : String) : List Process → List Int
  | [] => []
  | p :: ps =>
    if stringsContains (stringsToLower p.executable) (stringsToLower str) then
      p.pid :: handleString str ps
    else handleString str ps

/-- The loop of `handlePort` over the connections. -/
def portPIDs (port : String) : List Conn → List Int
  | [] => []
  | c :: cs => if itoa (c.port : Int) = port then c.pid :: portPIDs port cs else portPIDs port cs

/-- Source `handlePort`: `nil` when the connections cannot be fetched. -/
def handlePort (os : OS) (port : String) (_processes : List Process) : List Int :=
  match os.connections with
  | .error _ => []
  | .ok conns => portPIDs port conns

/-- The inner loop of both scanners over the entries of one fd directory:
an entry whose link cannot be read is skipped; `true` as soon as a link
equals `path`. -/
def scanFds (fs : FS) (path fdPath : String) : List DirEntry → Bool
  | [] => false
  | fd :: fds =>
    match fs.readlink (filepathJoin [fdPath, fd.name]) with
    | .error _ => scanFds fs path fdPath fds
    | .ok fdLink => if fdLink = path then true else scanFds fs path fdPath fds

/-- The outer loop of `getFileLockingPIDMacOS` over the process list. -/
def scanProcesses (fs : FS) (path : String) : List Process → Int × Option Err
  | [] => (0, none)
  | proc :: procs =>
    let pid := proc.pid
    let fdPath := "/proc/" ++ itoa pid ++ "/fd"
    match fs.readDir fdPath with
    | .error _ => scanProcesses fs path procs
    | .ok fds => if scanFds fs path fdPath fds then (pid, none) else scanProcesses fs path procs

/-- Source `getFileLockingPIDMacOS`: open the path, then scan with the
descriptor held. -/
def getFileLockingPIDMacOS (os : OS) (path : String) (processes : List Process) :
    Int × Option Err :=
  match os.openFile path with
  | .error err => (0, some err)
  | .ok held => scanProcesses held path processes

/-- The body of one goroutine of `getFileLockingPIDLinux`: the value it
assigns to `foundPID` under the lock, or `none` when it returns without
writing. -/
def scanTask (fs : FS) (path : String) (dir : DirEntry) : Option Int :=
  match atoi dir.name with
  | none => none
  | some pid =>
    let fdPath := filepathJoin ["/proc", dir.name, "fd"]
    match fs.readDir fdPath with
    | .error _ => none
    | .ok fds => if scanFds fs path fdPath fds then some pid else none

/-- The goroutines `getFileLockingPIDLinux` launches, in launch order: one for
each entry of `/proc` with `IsDir()`; none when `/proc` cannot be listed. -/
def launchedTasks (os : OS) (path : String) : List (Option Int) :=
  match os.fs.readDir "/proc" with
  | .error _ => []
  | .ok dirs => (dirs.filter (fun d => d.isDir)).map (scanTask os.fs path)

/-- The effect on `foundPID` of one task taking its turn. -/
def applyWrite (tasks : List (Option Int)) (foundPID : Int) (i : Nat) : Int :=
  match tasks[i]? with
  | some (some pid) => pid
  | _ => foundPID

/-- The value of `foundPID` after `wg.Wait()`, when the tasks took their turns
at the mutex in the order `sched` (indices into the launch order). -/
def runSchedule (tasks : List (Option Int)) (sched : List Nat) : Int :=
  sched.foldl (applyWrite tasks) 0

/-- Source `getFileLockingPIDLinux`, under the schedule `sched`. -/
def getFileLockingPIDLinux (os : OS) (path : String) (sched : List Nat) : Int × Option Err :=
  match os.fs.readDir "/proc" with
  | .error err => (0, some err)
  | .ok _ => (runSchedule (launchedTasks os path) sched, none)

/-- A schedule is an order in which every launched task runs exactly once. -/
def ValidSchedule (os : OS) (path : String) (sched : List Nat) : Prop :=
  sched.Perm (List.range (launchedTasks os path).length)

/-- Source `handlePath`. -/
def handlePath (os : OS) (path : String) (processes : List Process) (sched : List Nat) :
    Int × Option Err :=
  if os.goos = "darwin" then getFileLockingPIDMacOS os path processes
  else if os.goos = "linux" then getFileLockingPIDLinux os path sched
  else (0, some "unsupported OS")

/-- The loop `for _, pid := range pids` of `aggregateResults`. -/
def addFound (processes : List Process) (results : ResultMap) : List Int → ResultMap
  | [] => results
  | pid :: pids =>
    match findProcessByPID pid processes with
    | some proc => addFound processes (mapSet pid proc results) pids
    | none => addFound processes results pids

/-- The body of the loop of `aggregateResults` for one argument; `sched` is the
schedule the concurrent scanner runs under if this argument reaches it. -/
def aggregateArg (os : OS) (processes : List Process) (results : ResultMap)
    (a : String × List Nat) : ResultMap :=
  let arg := a.1
  if stringsHasPrefix arg ":" then
    addFound processes results (handlePort os (arg.drop 1) processes)
  else
    match os.stat arg with
    | .ok isDir =>
      let normalized : Except Err String := if !isDir then os.abs arg else .ok arg
      match normalized with
      | .error _ => results
      | .ok arg1 =>
        match handlePath os arg1 processes a.2 with
        | (pid, none) =>
          if pid ≠ 0 then
            match findProcessByPID pid processes with
            | some proc => mapSet pid proc results
            | none => results
          else results
        | (_, some _) => results
    | .error _ =>
      match atoi arg with
      | some pid =>
        match findProcessByPID pid processes with
        | some proc => mapSet pid proc results
        | none => results
      | none => addFound processes results (handleString arg processes)

/-- Source `aggregateResults`; every argument comes with the schedule of its
scan. -/
def aggregateResults (os : OS) (args : List (String × List Nat)) (processes : List Process) :
    ResultMap :=
  args.foldl (aggregateArg os processes) []

/-! ## Specification predicates -/

/-- The process `pid` holds `path` in the snapshot `fs`: its fd directory
`/proc/<pid>/fd` can be listed and has an entry whose link resolves to a string
equal to `path`. -/
def holdsPath (fs : FS) (path : String) (pid : Int) : Prop :=
  ∃ fds, fs.readDir ("/proc/" ++ itoa pid ++ "/fd") = .ok fds ∧
    ∃ fd ∈ fds, fs.readlink (filepathJoin ["/proc/" ++ itoa pid ++ "/fd", fd.name]) = .ok path

/-- The entry `d` of `/proc` owns `path` with PID `pid`: it is a directory, its
name parses to `pid`, its fd directory can be listed and has an entry whose
link resolves to a string equal to `path`. -/
def ownsPath (fs : FS) (path : String) (d : DirEntry) (pid : Int) : Prop :=
  d.isDir = true ∧ atoi d.name = some pid ∧
    ∃ fds, fs.readDir (filepathJoin ["/proc", d.name, "fd"]) = .ok fds ∧
      ∃ fd ∈ fds,
        fs.readlink (filepathJoin [filepathJoin ["/proc", d.name, "fd"], fd.name]) = .ok path

/-- The PIDs one argument of `aggregateResults` resolves to, before they are
looked up in the process list: the PIDs of `handlePort` for a port, the PID
of `handlePath` (when it is not 0 and the error is nil) for an existing path,
the number itself for a number, the PIDs of `handleString` for free text. -/
def resolvedPIDs (os : OS) (processes : List Process) (a : String × List Nat) : List Int :=
  if stringsHasPrefix a.1 ":" then handlePort os (a.1.drop 1) processes
  else
    match os.stat a.1 with
    | .ok isDir =>
      match (if !isDir then os.abs a.1 else .ok a.1 : Except Err String) with
      | .error _ => []
      | .ok arg1 =>
        match handlePath os arg1 processes a.2 with
        | (pid, none) => if pid ≠ 0 then [pid] else []
        | (_, some _) => []
    | .error _ =>
      match atoi a.1 with
      | some pid => [pid]
      | none => handleString a.1 processes

/-- The resolution of the argument `a` fails: it is not a port and either the
absolute-path conversion fails, or `handlePath` returns an error, or the PID
found by `handlePath` or written as a number is not in the process list. -/
def resolutionFails (os : OS) (processes : List Process) (a : String × List Nat) : Prop :=
  stringsHasPrefix a.1 ":" = false ∧
    ((∃ e, os.stat a.1 = .ok false ∧ os.abs a.1 = .error e) ∨
      (∃ isDir arg1 pid e, os.stat a.1 = .ok isDir ∧
        (if !isDir then os.abs a.1 else .ok a.1 : Except Err String) = .ok arg1 ∧
        handlePath os arg1 processes a.2 = (pid, some e)) ∨
      (∃ isDir arg1 pid, os.stat a.1 = .ok isDir ∧
        (if !isDir then os.abs a.1 else .ok a.1 : Except Err String) = .ok arg1 ∧
        handlePath os arg1 processes a.2 = (pid, none) ∧ pid ∉ processes.map Process.pid) ∨
      (∃ e pid, os.stat a.1 = .error e ∧ atoi a.1 = some pid ∧
        pid ∉ processes.map Process.pid))

instance decidableHoldsPath (fs : FS) (path : String) (pid : Int) :
    Decidable (holdsPath fs path pid) :=
  match h : fs.readDir ("/proc/" ++ itoa pid ++ "/fd") with
  | .ok fds =>
    decidable_of_iff
      (∃ fd ∈ fds,
        fs.readlink (filepathJoin ["/proc/" ++ itoa pid ++ "/fd", fd.name]) = .ok path)
      ⟨fun hx => ⟨fds, h, hx⟩, fun ⟨_, h2, hx⟩ => by cases h.symm.trans h2; exact hx⟩
  | .error _ => isFalse (fun ⟨_, h2, _⟩ => by cases h.symm.trans h2)

instance decidableOwnsPath (fs : FS) (path : String) (d : DirEntry) (pid : Int) :
    Decidable (ownsPath fs path d pid) :=
  match h : fs.readDir (filepathJoin ["/proc", d.name, "fd"]) with
  | .ok fds =>
    decidable_of_iff
      (d.isDir = true ∧ atoi d.name = some pid ∧ ∃ fd ∈ fds,
        fs.readlink (filepathJoin [filepathJoin ["/proc", d.name, "fd"], fd.name]) = .ok path)
      ⟨fun ⟨h1, h2, hx⟩ => ⟨h1, h2, fds, h, hx⟩,
        fun ⟨h1, h2, _, h3, hx⟩ => by cases h.symm.trans h3; exact ⟨h1, h2, hx⟩⟩
  | .error _ => isFalse (fun ⟨_, _, _, h3, _⟩ => by cases h.symm.trans h3)

instance decidableExistsOwnsPath (fs : FS) (path : String) (d : DirEntry) :
    Decidable (∃ pid, ownsPath fs path d pid) :=
  match h : atoi d.name with
  | some pid =>
    decidable_of_iff (ownsPath fs path d pid)
      ⟨fun hx => ⟨pid, hx⟩, fun ⟨_, hq⟩ => by cases h.symm.trans hq.2.1; exact hq⟩
  | none => isFalse (fun ⟨_, hq⟩ => by cases h.symm.trans hq.2.1)

instance decidableValidSchedule (os : OS) (path : String) (sched : List Nat) :
    Decidable (ValidSchedule os path sched) :=
  inferInstanceAs (Decidable (sched.Perm (List.range (launchedTasks os path).length)))

/-! ## A sample system

A Linux-style `/proc` with four processes.  Processes 7 and 8 both hold
`/tmp/a`; only 8 holds `/tmp/b`; 7 also holds the directory `/tmp`; the fd
directory of 9 cannot be listed; 42 is the program itself. -/

/-- The listing of `/proc` and of the fd directories of the sample system. -/
def sampleReadDir (dir : String) : Except Err (List DirEntry) :=
  if dir = "/proc" then
    .ok [⟨"7", true⟩, ⟨"8", true⟩, ⟨"9", true⟩, ⟨"42", true⟩, ⟨"self", false⟩, ⟨"sys", true⟩]
  else if dir = "/proc/7/fd" then .ok [⟨"0", false⟩, ⟨"3", false⟩, ⟨"5", false⟩]
  else if dir = "/proc/8/fd" then .ok [⟨"4", false⟩, ⟨"6", false⟩]
  else if dir = "/proc/9/fd" then .error "permission denied"
  else if dir = "/proc/42/fd" then .ok [⟨"0", false⟩, ⟨"1", false⟩]
  else .error "no such file or directory"

/-- The link targets of the descriptors of the sample system. -/
def sampleReadlink (link : String) : Except Err String :=
  if link = "/proc/7/fd/0" then .error "no such file or directory"
  else if link = "/proc/7/fd/3" then .ok "/tmp/a"
  else if link = "/proc/7/fd/5" then .ok "/tmp"
  else if link = "/proc/8/fd/4" then .ok "/tmp/a"
  else if link = "/proc/8/fd/6" then .ok "/tmp/b"
  else if link = "/proc/42/fd/0" then .ok "/dev/pts/0"
  else if link = "/proc/42/fd/1" then .ok "/dev/pts/0"
  else .error "invalid argument"

/-- The file system of the sample system. -/
def sampleFS : FS :=
  ⟨sampleReadDir, sampleReadlink⟩

/-- The file system seen while process `self` holds a new descriptor `fd` on
`path`: the listing of `/proc/<self>/fd`, when there is one, gains the entry
`fd`, and the link of that entry resolves to `path`. -/
def withDescriptor (fs : FS) (self : Int) (fd path : String) : FS :=
  ⟨fun dir =>
      if dir = "/proc/" ++ itoa self ++ "/fd" then
        match fs.readDir dir with
        | .ok entries => .ok (entries ++ [⟨fd, false⟩])
        | .error e => .error e
      else fs.readDir dir,
    fun link =>
      if link = "/proc/" ++ itoa self ++ "/fd/" ++ fd then .ok path else fs.readlink link⟩

/-- The call `os.Stat` of the sample system. -/
def sampleStat (path : String) : Except Err Bool :=
  if path = "/tmp" then .ok true
  else if path = "/tmp/a" ∨ path = "/tmp/b" ∨ path = "/tmp/c" ∨ path = "/root/secret" then .ok false
  else if path = "c" then .ok false
  else .error "no such file or directory"

/-- The call `filepath.Abs` of the sample system, with working directory `/tmp`. -/
def sampleAbs (path : String) : Except Err String :=
  if stringsHasPrefix path "/" then .ok ⟨filepathClean path.data⟩
  else .ok (filepathJoin ["/tmp", path])

/-- The call `os.Open` of the sample system, made by process 42: the new
descriptor is number 3. -/
def sampleOpen (path : String) : Except Err FS :=
  if path = "/root/secret" then .error "permission denied"
  else
    match sampleStat path with
    | .ok _ => .ok (withDescriptor sampleFS 42 "3" path)
    | .error e => .error e

/-- The sample system, for a given value of `runtime.GOOS`. -/
def sampleOS (goos : String) : OS :=
  ⟨goos, sampleFS, sampleStat, sampleAbs, sampleOpen, .ok [⟨80, 7⟩, ⟨22, 8⟩, ⟨80, 0⟩]⟩

/-- The sample system when `/proc` cannot be listed. -/
def noProcOS : OS :=
  ⟨"linux", ⟨fun _ => .error "no such file or directory", sampleReadlink⟩, sampleStat,
    sampleAbs, sampleOpen, .error "permission denied"⟩

/-- The process list of the sample system. -/
def sampleProcesses : List Process :=
  [⟨9, 1, "sshd"⟩, ⟨7, 1, "bash"⟩, ⟨8, 7, "Vim"⟩, ⟨42, 7, "pfinder"⟩]

/-! ## The inner loop -/

theorem scanFds_eq_true_iff (fs : FS) (path fdPath : String) (fds : List DirEntry) :
    scanFds fs path fdPath fds = true ↔
      ∃ fd ∈ fds, fs.readlink (filepathJoin [fdPath, fd.name]) = .ok path := by
  induction fds with
  | nil => simp [scanFds]
  | cons fd fds ih =>
    rw [scanFds]
    cases h : fs.readlink (filepathJoin [fdPath, fd.name]) with
    | error e => simp [h, ih]
    | ok l =>
      by_cases hl : l = path
      · simp [h, hl]
      · simp [h, hl, ih]

theorem scanFds_skip_unreadable (fs : FS) (path fdPath : String) (pre post : List DirEntry)
    (fd : DirEntry) (e : Err) (h : fs.readlink (filepathJoin [fdPath, fd.name]) = .error e) :
    scanFds fs path fdPath (pre ++ fd :: post) = scanFds fs path fdPath (pre ++ post) := by
  induction pre with
  | nil => simp [scanFds, h]
  | cons x pre ih =>
    rw [List.cons_append, List.cons_append, scanFds, scanFds, ih]

/-! ## The sequential scan -/

theorem scanProcesses_cons_of_holds (fs : FS) (path : String) (p : Process) (ps : List Process)
    (h : holdsPath fs path p.pid) : scanProcesses fs path (p :: ps) = (p.pid, none) := by
  obtain ⟨fds, hdir, hfd⟩ := h
  have hscan := (scanFds_eq_true_iff fs path ("/proc/" ++ itoa p.pid ++ "/fd") fds).2 hfd
  simp [scanProcesses, hdir, hscan]

theorem scanProcesses_cons_of_not_holds (fs : FS) (path : String) (p : Process)
    (ps : List Process) (h : ¬ holdsPath fs path p.pid) :
    scanProcesses fs path (p :: ps) = scanProcesses fs path ps := by
  rw [scanProcesses]
  cases hdir : fs.readDir ("/proc/" ++ itoa p.pid ++ "/fd") with
  | error e => simp [hdir]
  | ok fds =>
    have hns : scanFds fs path ("/proc/" ++ itoa p.pid ++ "/fd") fds = false := by
      cases hs : scanFds fs path ("/proc/" ++ itoa p.pid ++ "/fd") fds with
      | false => rfl
      | true => exact absurd ⟨fds, hdir, (scanFds_eq_true_iff _ _ _ _).1 hs⟩ h
    simp [hdir, hns]

theorem scanProcesses_append_of_not_holds (fs : FS) (path : String) (pre rest : List Process)
    (h : ∀ q ∈ pre, ¬ holdsPath fs path q.pid) :
    scanProcesses fs path (pre ++ rest) = scanProcesses fs path rest := by
  induction pre with
  | nil => rfl
  | cons q pre ih =>
    rw [List.cons_append, scanProcesses_cons_of_not_holds fs path q _ (h q (by simp))]
    exact ih (fun r hr => h r (by simp [hr]))

theorem scanProcesses_skip_unlistable (fs : FS) (path : String) (pre post : List Process)
    (p : Process) (e : Err) (h : fs.readDir ("/proc/" ++ itoa p.pid ++ "/fd") = .error e) :
    scanProcesses fs path (pre ++ p :: post) = scanProcesses fs path (pre ++ post) := by
  induction pre with
  | nil => simp [scanProcesses, h]
  | cons x pre ih =>
    rw [List.cons_append, List.cons_append, scanProcesses, scanProcesses, ih]

theorem scanProcesses_error (fs : FS) (path : String) (ps : List Process) :
    (scanProcesses fs path ps).2 = none := by
  induction ps with
  | nil => rfl
  | cons p ps ih =>
    rw [scanProcesses]
    cases hdir : fs.readDir ("/proc/" ++ itoa p.pid ++ "/fd") with
    | error e => simpa [hdir] using ih
    | ok fds =>
      cases hs : scanFds fs path ("/proc/" ++ itoa p.pid ++ "/fd") fds with
      | false => simpa [hdir, hs] using ih
      | true => simp [hdir, hs]

theorem scanProcesses_finds_owner (fs : FS) (path : String) (ps : List Process)
    (h : ∃ p ∈ ps, holdsPath fs path p.pid) :
    ∃ q ∈ ps, holdsPath fs path q.pid ∧ scanProcesses fs path ps = (q.pid, none) := by
  induction ps with
  | nil => simp at h
  | cons p ps ih =>
    by_cases hp : holdsPath fs path p.pid
    · exact ⟨p, by simp, hp, scanProcesses_cons_of_holds fs path p ps hp⟩
    · obtain ⟨r, hr, hhold⟩ := h
      have hr2 : r ∈ ps := by
        rcases List.mem_cons.1 hr with rfl | hmem
        · exact absurd hhold hp
        · exact hmem
      obtain ⟨q, hq, hqh, hres⟩ := ih ⟨r, hr2, hhold⟩
      refine ⟨q, by simp [hq], hqh, ?_⟩
      rw [scanProcesses_cons_of_not_holds fs path p ps hp]
      exact hres

/-- C1: when the open of `path` succeeds, the sequential scanner returns
`(pid, nil)` for the first process of the list, in list order, whose fd
directory is listable and has an entry whose link resolves to `path` (so the
single holder `p` is returned whatever stands before and after it in the
list), and `(0, nil)` when no process of the list has such an entry.  The
descriptors are those seen during the scan, with the path open. -/
theorem getFileLockingPIDMacOS_first_owner (os : OS) (path : String) (held : FS)
    (processes : List Process) (hopen : os.openFile path = .ok held) :
    (∀ pre p post, processes = pre ++ p :: post →
        (∀ q ∈ pre, ¬ holdsPath held path q.pid) → holdsPath held path p.pid →
        getFileLockingPIDMacOS os path processes = (p.pid, none)) ∧
    ((∀ q ∈ processes, ¬ holdsPath held path q.pid) →
        getFileLockingPIDMacOS os path processes = (0, none)) := by
  constructor
  · intro pre p post hsplit hpre hp
    rw [getFileLockingPIDMacOS, hopen, hsplit]
    show scanProcesses held path (pre ++ p :: post) = (p.pid, none)
    rw [scanProcesses_append_of_not_holds held path pre (p :: post) hpre]
    exact scanProcesses_cons_of_holds held path p post hp
  · intro hnone
    rw [getFileLockingPIDMacOS, hopen]
    show scanProcesses held path processes = (0, none)
    have h := scanProcesses_append_of_not_holds held path processes [] hnone
    rw [List.append_nil] at h
    rw [h]
    rfl

theorem getFileLockingPIDMacOS_first_owner_witness :
    getFileLockingPIDMacOS (sampleOS "darwin") "/tmp/b" sampleProcesses = (8, none) ∧
    getFileLockingPIDMacOS (sampleOS "darwin") "/tmp/c"
      [⟨9, 1, "sshd"⟩, ⟨7, 1, "bash"⟩, ⟨8, 7, "Vim"⟩] = (0, none) :=
  ⟨(getFileLockingPIDMacOS_first_owner (sampleOS "darwin") "/tmp/b"
      (withDescriptor sampleFS 42 "3" "/tmp/b") sampleProcesses rfl).1
      [⟨9, 1, "sshd"⟩, ⟨7, 1, "bash"⟩] ⟨8, 7, "Vim"⟩ [⟨42, 7, "pfinder"⟩] rfl
      (by decide) (by decide),
    (getFileLockingPIDMacOS_first_owner (sampleOS "darwin") "/tmp/c"
      (withDescriptor sampleFS 42 "3" "/tmp/c")
      [⟨9, 1, "sshd"⟩, ⟨7, 1, "bash"⟩, ⟨8, 7, "Vim"⟩] rfl).2 (by decide)⟩

/-- C4: the error returned by the sequential scanner is non-nil exactly when
opening the query path fails.  When the open succeeds, a process whose fd
directory cannot be listed and a descriptor whose link cannot be read are
skipped and the scan goes on with what follows them: the result is the one
obtained without them, and a holder of the path anywhere in the list is
reached and reported with a nil error. -/
theorem getFileLockingPIDMacOS_error_iff (os : OS) (path : String) (processes : List Process) :
    ((getFileLockingPIDMacOS os path processes).2 ≠ none ↔ ∃ e, os.openFile path = .error e) ∧
    (∀ held, os.openFile path = .ok held →
      (∀ pre p post e, held.readDir ("/proc/" ++ itoa p.pid ++ "/fd") = .error e →
        getFileLockingPIDMacOS os path (pre ++ p :: post) =
          getFileLockingPIDMacOS os path (pre ++ post)) ∧
      (∀ fdPath pre fd post e, held.readlink (filepathJoin [fdPath, fd.name]) = .error e →
        scanFds held path fdPath (pre ++ fd :: post) = scanFds held path fdPath (pre ++ post)) ∧
      ((∃ p ∈ processes, holdsPath held path p.pid) →
        ∃ q ∈ processes, holdsPath held path q.pid ∧
          getFileLockingPIDMacOS os path processes = (q.pid, none))) := by
  constructor
  · rw [getFileLockingPIDMacOS]
    cases hopen : os.openFile path with
    | error e => simp
    | ok held => simp [scanProcesses_error]
  · intro held hopen
    refine ⟨?_, ?_, ?_⟩
    · intro pre p post e hdir
      simp only [getFileLockingPIDMacOS, hopen]
      exact scanProcesses_skip_unlistable held path pre post p e hdir
    · intro fdPath pre fd post e hlink
      exact scanFds_skip_unreadable held path fdPath pre post fd e hlink
    · intro hex
      simp only [getFileLockingPIDMacOS, hopen]
      exact scanProcesses_finds_owner held path processes hex

theorem getFileLockingPIDMacOS_error_iff_witness :
    (getFileLockingPIDMacOS (sampleOS "darwin") "/root/secret" sampleProcesses).2 ≠ none ∧
    getFileLockingPIDMacOS (sampleOS "darwin") "/tmp/b"
        ([] ++ (⟨9, 1, "sshd"⟩ : Process) :: [⟨7, 1, "bash"⟩, ⟨8, 7, "Vim"⟩]) =
      getFileLockingPIDMacOS (sampleOS "darwin") "/tmp/b"
        ([] ++ [⟨7, 1, "bash"⟩, ⟨8, 7, "Vim"⟩]) ∧
    scanFds (withDescriptor sampleFS 42 "3" "/tmp/b") "/tmp/b" "/proc/7/fd"
        ([] ++ (⟨"0", false⟩ : DirEntry) :: [⟨"3", false⟩]) =
      scanFds (withDescriptor sampleFS 42 "3" "/tmp/b") "/tmp/b" "/proc/7/fd"
        ([] ++ [⟨"3", false⟩]) ∧
    ∃ q ∈ sampleProcesses, holdsPath (withDescriptor sampleFS 42 "3" "/tmp/b") "/tmp/b" q.pid ∧
      getFileLockingPIDMacOS (sampleOS "darwin") "/tmp/b" sampleProcesses = (q.pid, none) :=
  ⟨(getFileLockingPIDMacOS_error_iff (sampleOS "darwin") "/root/secret" sampleProcesses).1.2
      ⟨"permission denied", rfl⟩,
    ((getFileLockingPIDMacOS_error_iff (sampleOS "darwin") "/tmp/b" sampleProcesses).2
      (withDescriptor sampleFS 42 "3" "/tmp/b") rfl).1 [] ⟨9, 1, "sshd"⟩
      [⟨7, 1, "bash"⟩, ⟨8, 7, "Vim"⟩] "permission denied" rfl,
    ((getFileLockingPIDMacOS_error_iff (sampleOS "darwin") "/tmp/b" sampleProcesses).2
      (withDescriptor sampleFS 42 "3" "/tmp/b") rfl).2.1 "/proc/7/fd" [] ⟨"0", false⟩
      [⟨"3", false⟩] "no such file or directory" rfl,
    ((getFileLockingPIDMacOS_error_iff (sampleOS "darwin") "/tmp/b" sampleProcesses).2
      (withDescriptor sampleFS 42 "3" "/tmp/b") rfl).2.2
      ⟨⟨8, 7, "Vim"⟩, by decide, by decide⟩⟩

/-! ## The concurrent scan -/

theorem scanTask_eq_some_iff (fs : FS) (path : String) (d : DirEntry) (pid : Int) :
    scanTask fs path d = some pid ↔
      atoi d.name = some pid ∧
        ∃ fds, fs.readDir (filepathJoin ["/proc", d.name, "fd"]) = .ok fds ∧
          ∃ fd ∈ fds,
            fs.readlink (filepathJoin [filepathJoin ["/proc", d.name, "fd"], fd.name]) =
              .ok path := by
  rw [scanTask]
  cases hn : atoi d.name with
  | none => simp
  | some n =>
    cases hdir : fs.readDir (filepathJoin ["/proc", d.name, "fd"]) with
    | error e => simp [hdir]
    | ok fds =>
      cases hs : scanFds fs path (filepathJoin ["/proc", d.name, "fd"]) fds with
      | true =>
        have hex := (scanFds_eq_true_iff _ _ _ _).1 hs
        simp [hdir, hs, hex]
      | false =>
        have hnex : ¬ ∃ fd ∈ fds,
            fs.readlink (filepathJoin [filepathJoin ["/proc", d.name, "fd"], fd.name]) =
              .ok path := by
          intro hex
          rw [(scanFds_eq_true_iff _ _ _ _).2 hex] at hs
          exact Bool.noConfusion hs
        simp [hdir, hs, hnex]

theorem launchedTasks_of_listing (os : OS) (path : String) (dirs : List DirEntry)
    (hroot : os.fs.readDir "/proc" = .ok dirs) :
    launchedTasks os path = (dirs.filter (fun d => d.isDir)).map (scanTask os.fs path) := by
  simp [launchedTasks, hroot]

theorem mem_launchedTasks_iff (os : OS) (path : String) (dirs : List DirEntry)
    (hroot : os.fs.readDir "/proc" = .ok dirs) (pid : Int) :
    some pid ∈ launchedTasks os path ↔ ∃ d ∈ dirs, ownsPath os.fs path d pid := by
  rw [launchedTasks_of_listing os path dirs hroot]
  simp only [List.mem_map, List.mem_filter, scanTask_eq_some_iff, ownsPath]
  constructor
  · rintro ⟨d, ⟨hd, hdir⟩, hn, hfd⟩
    exact ⟨d, hd, hdir, hn, hfd⟩
  · rintro ⟨d, hd, hdir, hn, hfd⟩
    exact ⟨d, ⟨hd, hdir⟩, hn, hfd⟩

theorem foldl_applyWrite (tasks : List (Option Int)) (sched : List Nat) (init : Int) :
    (sched.foldl (applyWrite tasks) init = init ∧ ∀ i ∈ sched, ∀ pid, tasks[i]? ≠ some (some pid)) ∨
      ∃ i ∈ sched, tasks[i]? = some (some (sched.foldl (applyWrite tasks) init)) := by
  induction sched generalizing init with
  | nil => left; simp
  | cons i sched ih =>
    rw [List.foldl_cons]
    rcases ih (applyWrite tasks init i) with ⟨hres, hno⟩ | ⟨j, hj, hw⟩
    · by_cases hi : ∃ pid, tasks[i]? = some (some pid)
      · obtain ⟨pid, hpid⟩ := hi
        right
        refine ⟨i, by simp, ?_⟩
        rw [hres]
        simp [applyWrite, hpid]
      · left
        have hkeep : applyWrite tasks init i = init := by
          unfold applyWrite
          split
          · rename_i pid hpid
            exact absurd ⟨pid, hpid⟩ hi
          · rfl
        refine ⟨by rw [hres, hkeep], ?_⟩
        intro k hk pid hpid
        rcases List.mem_cons.1 hk with rfl | hk2
        · exact hi ⟨pid, hpid⟩
        · exact hno k hk2 pid hpid
    · right
      exact ⟨j, by simp [hj], hw⟩

theorem runSchedule_mem (tasks : List (Option Int)) (sched : List Nat)
    (hs : sched.Perm (List.range tasks.length)) (hw : ∃ pid, some pid ∈ tasks) :
    some (runSchedule tasks sched) ∈ tasks := by
  rcases foldl_applyWrite tasks sched 0 with ⟨_, hno⟩ | ⟨i, _, hi⟩
  · obtain ⟨pid, hpid⟩ := hw
    obtain ⟨n, hn⟩ := List.mem_iff_getElem?.1 hpid
    have hlt : n < tasks.length := by
      by_contra hge
      rw [List.getElem?_eq_none (Nat.le_of_not_lt hge)] at hn
      exact Option.noConfusion hn
    have hmem : n ∈ sched := (hs.mem_iff).2 (List.mem_range.2 hlt)
    exact absurd hn (hno n hmem pid)
  · exact List.mem_iff_getElem?.2 ⟨i, hi⟩

theorem runSchedule_zero (tasks : List (Option Int)) (sched : List Nat)
    (hw : ¬ ∃ pid, some pid ∈ tasks) : runSchedule tasks sched = 0 := by
  rcases foldl_applyWrite tasks sched 0 with ⟨h0, _⟩ | ⟨i, _, hi⟩
  · exact h0
  · exact absurd ⟨_, List.mem_iff_getElem?.2 ⟨i, hi⟩⟩ hw

theorem runSchedule_unique (tasks : List (Option Int)) (sched : List Nat) (pid : Int)
    (hs : sched.Perm (List.range tasks.length)) (hmem : some pid ∈ tasks)
    (huniq : ∀ q, some q ∈ tasks → q = pid) : runSchedule tasks sched = pid :=
  huniq _ (runSchedule_mem tasks sched hs ⟨pid, hmem⟩)

theorem runSchedule_append_singleton (tasks : List (Option Int)) (sched : List Nat) (i : Nat)
    (pid : Int) (h : tasks[i]? = some (some pid)) : runSchedule tasks (sched ++ [i]) = pid := by
  simp [runSchedule, List.foldl_append, applyWrite, h]

theorem exists_schedule_returning (tasks : List (Option Int)) (pid : Int)
    (hmem : some pid ∈ tasks) :
    ∃ sched, sched.Perm (List.range tasks.length) ∧ runSchedule tasks sched = pid := by
  obtain ⟨i, hi⟩ := List.mem_iff_getElem?.1 hmem
  have hlt : i < tasks.length := by
    by_contra hge
    rw [List.getElem?_eq_none (Nat.le_of_not_lt hge)] at hi
    exact Option.noConfusion hi
  have hrange : i ∈ List.range tasks.length := List.mem_range.2 hlt
  refine ⟨(List.range tasks.length).erase i ++ [i], ?_, ?_⟩
  · exact List.perm_append_comm.trans (List.perm_cons_erase hrange).symm
  · exact runSchedule_append_singleton tasks _ i pid hi

/-- C2: when the listing of `/proc` succeeds, under every schedule of the
launched tasks the concurrent scanner returns, with a nil error, the PID of
an entry that owns the path whenever at least one entry owns it, and PID 0
when no entry owns it.  An owning entry is a directory of `/proc` whose name
parses as a PID and one of whose descriptors resolves to the path. -/
theorem getFileLockingPIDLinux_returns_owner (os : OS) (path : String) (dirs : List DirEntry)
    (sched : List Nat) (hroot : os.fs.readDir "/proc" = .ok dirs)
    (hsched : ValidSchedule os path sched) :
    ((∃ d ∈ dirs, ∃ pid, ownsPath os.fs path d pid) →
      ∃ d ∈ dirs, ∃ pid, ownsPath os.fs path d pid ∧
        getFileLockingPIDLinux os path sched = (pid, none)) ∧
    ((¬ ∃ d ∈ dirs, ∃ pid, ownsPath os.fs path d pid) →
      getFileLockingPIDLinux os path sched = (0, none)) := by
  have hres : getFileLockingPIDLinux os path sched =
      (runSchedule (launchedTasks os path) sched, none) := by
    simp [getFileLockingPIDLinux, hroot]
  constructor
  · rintro ⟨d, hd, pid, hown⟩
    have hw : ∃ q, some q ∈ launchedTasks os path :=
      ⟨pid, (mem_launchedTasks_iff os path dirs hroot pid).2 ⟨d, hd, hown⟩⟩
    have hmem := runSchedule_mem (launchedTasks os path) sched hsched hw
    obtain ⟨d2, hd2, hown2⟩ := (mem_launchedTasks_iff os path dirs hroot _).1 hmem
    exact ⟨d2, hd2, _, hown2, hres⟩
  · intro hnone
    rw [hres, runSchedule_zero]
    rintro ⟨pid, hpid⟩
    obtain ⟨d, hd, hown⟩ := (mem_launchedTasks_iff os path dirs hroot pid).1 hpid
    exact hnone ⟨d, hd, pid, hown⟩

theorem getFileLockingPIDLinux_returns_owner_witness :
    (∃ d ∈ [(⟨"7", true⟩ : DirEntry), ⟨"8", true⟩, ⟨"9", true⟩, ⟨"42", true⟩, ⟨"self", false⟩,
        ⟨"sys", true⟩], ∃ pid, ownsPath (sampleOS "linux").fs "/tmp/a" d pid ∧
      getFileLockingPIDLinux (sampleOS "linux") "/tmp/a" [3, 1, 4, 0, 2] = (pid, none)) ∧
    getFileLockingPIDLinux (sampleOS "linux") "/tmp/c" [3, 1, 4, 0, 2] = (0, none) :=
  ⟨(getFileLockingPIDLinux_returns_owner (sampleOS "linux") "/tmp/a" _ [3, 1, 4, 0, 2] rfl
      (by decide)).1 ⟨⟨"8", true⟩, by decide, 8, by decide⟩,
    (getFileLockingPIDLinux_returns_owner (sampleOS "linux") "/tmp/c" _ [3, 1, 4, 0, 2] rfl
      (by decide)).2 (by decide)⟩

/-- C3: when listing `/proc` fails, the concurrent scanner returns PID 0 with
that (non-nil) error and launches no scan task; when the listing succeeds the
returned error is nil, whatever happens inside the tasks. -/
theorem getFileLockingPIDLinux_error_iff (os : OS) (path : String) (sched : List Nat) :
    (∀ e, os.fs.readDir "/proc" = .error e →
      getFileLockingPIDLinux os path sched = (0, some e) ∧ launchedTasks os path = []) ∧
    (∀ dirs, os.fs.readDir "/proc" = .ok dirs →
      (getFileLockingPIDLinux os path sched).2 = none) := by
  constructor
  · intro e he
    simp [getFileLockingPIDLinux, launchedTasks, he]
  · intro dirs hd
    simp [getFileLockingPIDLinux, hd]

theorem getFileLockingPIDLinux_error_iff_witness :
    (getFileLockingPIDLinux noProcOS "/tmp/a" [0, 1] = (0, some "no such file or directory") ∧
      launchedTasks noProcOS "/tmp/a" = []) ∧
    (getFileLockingPIDLinux (sampleOS "linux") "/tmp/a" [0, 1]).2 = none :=
  ⟨(getFileLockingPIDLinux_error_iff noProcOS "/tmp/a" [0, 1]).1 _ rfl,
    (getFileLockingPIDLinux_error_iff (sampleOS "linux") "/tmp/a" [0, 1]).2 _ rfl⟩

/-! ## The result map -/

theorem mapKeys_mapSet_mem (pid : Int) (proc : Process) (m : ResultMap) (k : Int) :
    k ∈ mapKeys (mapSet pid proc m) ↔ k = pid ∨ k ∈ mapKeys m := by
  induction m with
  | nil => simp [mapSet, mapKeys]
  | cons kv rest ih =>
    obtain ⟨k0, v0⟩ := kv
    rw [mapSet]
    by_cases hk : k0 = pid
    · subst hk
      simp [mapKeys]
    · have ih2 : k ∈ List.map Prod.fst (mapSet pid proc rest) ↔
          k = pid ∨ k ∈ List.map Prod.fst rest := ih
      simp only [hk, if_false, mapKeys, List.map_cons, List.mem_cons, ih2]
      tauto

theorem mapKeys_mapSet_nodup (pid : Int) (proc : Process) (m : ResultMap)
    (h : (mapKeys m).Nodup) : (mapKeys (mapSet pid proc m)).Nodup := by
  induction m with
  | nil => simp [mapSet, mapKeys]
  | cons kv rest ih =>
    obtain ⟨k0, v0⟩ := kv
    have hcons : k0 ∉ mapKeys rest ∧ (mapKeys rest).Nodup := by
      simpa [mapKeys] using h
    rw [mapSet]
    by_cases hk : k0 = pid
    · subst hk
      simpa [mapKeys] using h
    · have hnot : k0 ∉ mapKeys (mapSet pid proc rest) := by
        rw [mapKeys_mapSet_mem]
        rintro (h1 | h2)
        · exact hk h1
        · exact hcons.1 h2
      have hrest := ih hcons.2
      simp only [hk, if_false]
      show (k0 :: mapKeys (mapSet pid proc rest)).Nodup
      exact List.nodup_cons.2 ⟨hnot, hrest⟩

theorem findProcessByPID_eq_none_iff (pid : Int) (processes : List Process) :
    findProcessByPID pid processes = none ↔ pid ∉ processes.map Process.pid := by
  induction processes with
  | nil => simp [findProcessByPID]
  | cons p ps ih =>
    rw [findProcessByPID]
    by_cases hp : p.pid = pid
    · simp [hp]
    · simp only [hp, if_false, ih, List.map_cons, List.mem_cons]
      constructor
      · rintro h (h1 | h2)
        · exact hp h1.symm
        · exact h h2
      · intro h h2
        exact h (Or.inr h2)

theorem addFound_keys_mem (processes : List Process) (pids : List Int) (m : ResultMap) (k : Int) :
    k ∈ mapKeys (addFound processes m pids) ↔
      k ∈ mapKeys m ∨ (k ∈ pids ∧ k ∈ processes.map Process.pid) := by
  induction pids generalizing m with
  | nil => simp [addFound]
  | cons pid pids ih =>
    rw [addFound]
    cases hf : findProcessByPID pid processes with
    | none =>
      have hnot := (findProcessByPID_eq_none_iff pid processes).1 hf
      simp only [ih, List.mem_cons]
      constructor
      · rintro (h | ⟨h1, h2⟩)
        · exact Or.inl h
        · exact Or.inr ⟨Or.inr h1, h2⟩
      · rintro (h | ⟨h1 | h1, h2⟩)
        · exact Or.inl h
        · exact absurd (h1 ▸ h2) hnot
        · exact Or.inr ⟨h1, h2⟩
    | some proc =>
      have hin : pid ∈ processes.map Process.pid := by
        by_contra hno
        rw [(findProcessByPID_eq_none_iff pid processes).2 hno] at hf
        exact Option.noConfusion hf
      simp only [ih, mapKeys_mapSet_mem, List.mem_cons]
      constructor
      · rintro ((h | h) | ⟨h1, h2⟩)
        · exact Or.inr ⟨Or.inl h, h ▸ hin⟩
        · exact Or.inl h
        · exact Or.inr ⟨Or.inr h1, h2⟩
      · rintro (h | ⟨h1 | h1, h2⟩)
        · exact Or.inl (Or.inr h)
        · exact Or.inl (Or.inl h1)
        · exact Or.inr ⟨h1, h2⟩

theorem addFound_keys_nodup (processes : List Process) (pids : List Int) (m : ResultMap)
    (h : (mapKeys m).Nodup) : (mapKeys (addFound processes m pids)).Nodup := by
  induction pids generalizing m with
  | nil => simpa [addFound] using h
  | cons pid pids ih =>
    rw [addFound]
    cases hf : findProcessByPID pid processes with
    | none => exact ih m h
    | some proc => exact ih _ (mapKeys_mapSet_nodup pid proc m h)

theorem addFound_append (processes : List Process) (xs ys : List Int) (m : ResultMap) :
    addFound processes m (xs ++ ys) = addFound processes (addFound processes m xs) ys := by
  induction xs generalizing m with
  | nil => rfl
  | cons pid xs ih =>
    rw [List.cons_append, addFound, addFound]
    cases findProcessByPID pid processes with
    | none => exact ih m
    | some proc => exact ih _

/-! ## The dispatcher -/

theorem pathResult_eq_addFound (processes : List Process) (results : ResultMap)
    (r : Int × Option Err) :
    (match r with
      | (pid, none) =>
        if pid ≠ 0 then
          match findProcessByPID pid processes with
          | some proc => mapSet pid proc results
          | none => results
        else results
      | (_, some _) => results) =
      addFound processes results
        (match r with
          | (pid, none) => if pid ≠ 0 then [pid] else []
          | (_, some _) => []) := by
  obtain ⟨pid, err⟩ := r
  cases err with
  | some e => simp [addFound]
  | none =>
    by_cases hz : pid = 0
    · simp [hz, addFound]
    · cases hf : findProcessByPID pid processes <;> simp [hz, addFound, hf]

theorem aggregateArg_eq_addFound (os : OS) (processes : List Process) (results : ResultMap)
    (a : String × List Nat) :
    aggregateArg os processes results a =
      addFound processes results (resolvedPIDs os processes a) := by
  unfold aggregateArg resolvedPIDs
  by_cases hport : stringsHasPrefix a.1 ":" = true
  · simp [hport]
  · simp only [hport, Bool.false_eq_true, if_false]
    cases hstat : os.stat a.1 with
    | error e =>
      cases hn : atoi a.1 with
      | none => simp
      | some pid =>
        cases hf : findProcessByPID pid processes <;> simp [addFound, hf]
    | ok isDir =>
      cases isDir with
      | true =>
        simp only [Bool.not_true, Bool.false_eq_true, if_false]
        exact pathResult_eq_addFound processes results _
      | false =>
        simp only [Bool.not_false, if_true]
        cases habs : os.abs a.1 with
        | error e => simp [addFound]
        | ok arg1 => exact pathResult_eq_addFound processes results _

theorem aggregateResults_foldl (os : OS) (processes : List Process)
    (args : List (String × List Nat)) (results : ResultMap) :
    args.foldl (aggregateArg os processes) results =
      addFound processes results (args.flatMap (resolvedPIDs os processes)) := by
  induction args generalizing results with
  | nil => rfl
  | cons a args ih =>
    rw [List.foldl_cons, ih, aggregateArg_eq_addFound, List.flatMap_cons, addFound_append]

/-- C5: the map returned by `aggregateResults` holds at most one record per
PID; a PID that several arguments resolve to and that is in the process list
is in it exactly once; and its size is the number of distinct PIDs, among
those the arguments resolve to, that are in the process list. -/
theorem aggregateResults_dedup (os : OS) (args : List (String × List Nat))
    (processes : List Process) :
    (mapKeys (aggregateResults os args processes)).Nodup ∧
    (∀ p, (∃ a ∈ args, p ∈ resolvedPIDs os processes a) → p ∈ processes.map Process.pid →
      (mapKeys (aggregateResults os args processes)).count p = 1) ∧
    (aggregateResults os args processes).length =
      (((args.flatMap (resolvedPIDs os processes)).filter
        (fun p => decide (p ∈ processes.map Process.pid))).dedup).length := by
  have hagg : aggregateResults os args processes =
      addFound processes [] (args.flatMap (resolvedPIDs os processes)) :=
    aggregateResults_foldl os processes args []
  have hnodup : (mapKeys (aggregateResults os args processes)).Nodup := by
    rw [hagg]
    exact addFound_keys_nodup processes _ [] (by simp [mapKeys])
  have hmem : ∀ k, k ∈ mapKeys (aggregateResults os args processes) ↔
      (k ∈ args.flatMap (resolvedPIDs os processes) ∧ k ∈ processes.map Process.pid) := by
    intro k
    rw [hagg, addFound_keys_mem]
    simp [mapKeys]
  refine ⟨hnodup, ?_, ?_⟩
  · rintro p ⟨a, ha, hp⟩ hin
    have hk : p ∈ mapKeys (aggregateResults os args processes) :=
      (hmem p).2 ⟨List.mem_flatMap.2 ⟨a, ha, hp⟩, hin⟩
    exact List.count_eq_one_of_mem hnodup hk
  · have hlen : (aggregateResults os args processes).length =
        (mapKeys (aggregateResults os args processes)).length := by
      simp [mapKeys]
    rw [hlen]
    apply List.Perm.length_eq
    apply (List.perm_ext_iff_of_nodup hnodup (List.nodup_dedup _)).2
    intro k
    rw [hmem k, List.mem_dedup, List.mem_filter]
    simp

theorem aggregateResults_dedup_witness :
    (mapKeys (aggregateResults (sampleOS "linux")
      [(":80", []), ("bash", []), ("7", []), ("/tmp/a", [1, 0, 2, 3, 4]), ("vi", [])]
      sampleProcesses)).count 7 = 1 :=
  (aggregateResults_dedup (sampleOS "linux")
    [(":80", []), ("bash", []), ("7", []), ("/tmp/a", [1, 0, 2, 3, 4]), ("vi", [])]
    sampleProcesses).2.1 7 ⟨("7", []), by decide, by decide⟩ (by decide)

theorem aggregateArg_of_fails (os : OS) (processes : List Process) (a : String × List Nat)
    (h : resolutionFails os processes a) (results : ResultMap) :
    aggregateArg os processes results a = results := by
  obtain ⟨hport, hcase⟩ := h
  unfold aggregateArg
  simp only [hport, Bool.false_eq_true, if_false]
  rcases hcase with ⟨e, hstat, habs⟩ | ⟨isDir, arg1, pid, e, hstat, hnorm, hres⟩ |
    ⟨isDir, arg1, pid, hstat, hnorm, hres, hnot⟩ | ⟨e, pid, hstat, hn, hnot⟩
  · simp [hstat, habs]
  · simp only [hstat, hnorm, hres]
  · have hf := (findProcessByPID_eq_none_iff pid processes).2 hnot
    simp only [hstat, hnorm, hres, hf]
    split <;> rfl
  · have hf := (findProcessByPID_eq_none_iff pid processes).2 hnot
    simp only [hstat, hn, hf]

/-- C9: an argument whose resolution fails leaves the result of the batch
unchanged: `aggregateResults` on `xs ++ [a] ++ ys` returns the same map as on
`xs ++ ys`, which is the map obtained by processing every argument of `ys`
after the arguments of `xs`. -/
theorem aggregateResults_skips_failed (os : OS) (processes : List Process)
    (xs ys : List (String × List Nat)) (a : String × List Nat)
    (h : resolutionFails os processes a) :
    aggregateResults os (xs ++ [a] ++ ys) processes = aggregateResults os (xs ++ ys) processes ∧
    aggregateResults os (xs ++ [a] ++ ys) processes =
      ys.foldl (aggregateArg os processes) (aggregateResults os xs processes) := by
  have hstep : aggregateResults os (xs ++ [a] ++ ys) processes =
      ys.foldl (aggregateArg os processes) (aggregateResults os xs processes) := by
    simp only [aggregateResults, List.foldl_append, List.foldl_cons, List.foldl_nil]
    rw [aggregateArg_of_fails os processes a h]
  refine ⟨?_, hstep⟩
  rw [hstep]
  simp only [aggregateResults, List.foldl_append]

theorem aggregateResults_skips_failed_witness :
    aggregateResults (sampleOS "plan9") ([("7", [])] ++ [("/tmp/a", [0])] ++ [("vi", [])])
        sampleProcesses =
      aggregateResults (sampleOS "plan9") ([("7", [])] ++ [("vi", [])]) sampleProcesses ∧
    aggregateResults (sampleOS "linux") ([("7", [])] ++ [("12345", [])] ++ [("vi", [])])
        sampleProcesses =
      aggregateResults (sampleOS "linux") ([("7", [])] ++ [("vi", [])]) sampleProcesses :=
  ⟨(aggregateResults_skips_failed (sampleOS "plan9") sampleProcesses [("7", [])] [("vi", [])]
      ("/tmp/a", [0])
      ⟨by decide, Or.inr (Or.inl ⟨false, "/tmp/a", 0, "unsupported OS", rfl, rfl, rfl⟩)⟩).1,
    (aggregateResults_skips_failed (sampleOS "linux") sampleProcesses [("7", [])] [("vi", [])]
      ("12345", [])
      ⟨by decide, Or.inr (Or.inr (Or.inr
        ⟨"no such file or directory", 12345, rfl, by decide, by decide⟩))⟩).1⟩

/-! ## Directory arguments -/

/-- C8, as stated, fails: in the sample system `/tmp` is an existing directory
that process 7 holds open, and the argument `/tmp` contributes process 7 to
the result. -/
theorem directory_argument_contributes :
    stringsHasPrefix "/tmp" ":" = false ∧ (sampleOS "linux").stat "/tmp" = .ok true ∧
    ValidSchedule (sampleOS "linux") "/tmp" [0, 1, 2, 3, 4] ∧
    aggregateArg (sampleOS "linux") sampleProcesses [] ("/tmp", [0, 1, 2, 3, 4]) =
      [(7, ⟨7, 1, "bash"⟩)] ∧
    aggregateResults (sampleOS "linux") [("/tmp", [0, 1, 2, 3, 4])] sampleProcesses ≠ [] := by
  decide

/-- C8, amended: an argument that names an existing directory and does not
start with `:` is passed to `handlePath` unmodified (the result does not
depend on `filepath.Abs`); it contributes the process whose PID `handlePath`
returns, when that PID is not 0, the error is nil and the PID is in the
process list, and contributes nothing otherwise, in particular when no
process holds a descriptor whose link equals the argument. -/
theorem directory_argument_passed_unmodified (os : OS) (processes : List Process)
    (results : ResultMap) (a : String × List Nat)
    (hport : stringsHasPrefix a.1 ":" = false) (hdir : os.stat a.1 = .ok true) :
    aggregateArg os processes results a =
      (match handlePath os a.1 processes a.2 with
        | (pid, none) =>
          if pid ≠ 0 then
            match findProcessByPID pid processes with
            | some proc => mapSet pid proc results
            | none => results
          else results
        | (_, some _) => results) ∧
    (∀ abs2 : String → Except Err String,
      aggregateArg ⟨os.goos, os.fs, os.stat, abs2, os.openFile, os.connections⟩ processes
        results a = aggregateArg os processes results a) ∧
    (∀ dirs, os.goos = "linux" → os.fs.readDir "/proc" = .ok dirs →
      (¬ ∃ d ∈ dirs, ∃ pid, ownsPath os.fs a.1 d pid) →
      aggregateArg os processes results a = results) ∧
    (∀ held, os.goos = "darwin" → os.openFile a.1 = .ok held →
      (∀ q ∈ processes, ¬ holdsPath held a.1 q.pid) →
      aggregateArg os processes results a = results) := by
  have hmain : aggregateArg os processes results a =
      (match handlePath os a.1 processes a.2 with
        | (pid, none) =>
          if pid ≠ 0 then
            match findProcessByPID pid processes with
            | some proc => mapSet pid proc results
            | none => results
          else results
        | (_, some _) => results) := by
    unfold aggregateArg
    simp only [hport, Bool.false_eq_true, if_false, hdir, Bool.not_true]
  refine ⟨hmain, ?_, ?_, ?_⟩
  · intro abs2
    rw [hmain]
    unfold aggregateArg
    simp only [hport, Bool.false_eq_true, if_false, hdir, Bool.not_true]
    rfl
  · intro dirs hgoos hroot hnone
    have hlinux : handlePath os a.1 processes a.2 = (0, none) := by
      have hne : ¬ ("linux" = "darwin") := by decide
      simp only [handlePath, hgoos, hne, if_false, if_true]
      have hnone2 : ¬ ∃ pid, some pid ∈ launchedTasks os a.1 := by
        rintro ⟨pid, hpid⟩
        obtain ⟨d, hd, hown⟩ := (mem_launchedTasks_iff os a.1 dirs hroot pid).1 hpid
        exact hnone ⟨d, hd, pid, hown⟩
      simp [getFileLockingPIDLinux, hroot, runSchedule_zero _ _ hnone2]
    rw [hmain, hlinux]
    simp
  · intro held hgoos hopen hnone
    have hmac : handlePath os a.1 processes a.2 = (0, none) := by
      simp only [handlePath, hgoos, if_true, getFileLockingPIDMacOS, hopen]
      have h := scanProcesses_append_of_not_holds held a.1 processes [] hnone
      rw [List.append_nil] at h
      rw [h]
      rfl
    rw [hmain, hmac]
    simp

theorem directory_argument_passed_unmodified_witness :
    aggregateArg (sampleOS "linux") sampleProcesses [] ("/tmp", [0, 1, 2, 3, 4]) =
      (match handlePath (sampleOS "linux") "/tmp" sampleProcesses [0, 1, 2, 3, 4] with
        | (pid, none) =>
          if pid ≠ 0 then
            match findProcessByPID pid sampleProcesses with
            | some proc => mapSet pid proc []
            | none => []
          else []
        | (_, some _) => []) :=
  (directory_argument_passed_unmodified (sampleOS "linux") sampleProcesses []
    ("/tmp", [0, 1, 2, 3, 4]) (by decide) rfl).1

/-! ## Two runs of the same query -/

theorem owners_agree_of_names (fs : FS) (path : String) (dirs : List DirEntry)
    (h : ∀ d1 ∈ dirs, ∀ d2 ∈ dirs, (∃ p, ownsPath fs path d1 p) → (∃ p, ownsPath fs path d2 p) →
      atoi d1.name = atoi d2.name) :
    ∀ d1 ∈ dirs, ∀ d2 ∈ dirs, ∀ p1 p2,
      ownsPath fs path d1 p1 → ownsPath fs path d2 p2 → p1 = p2 := by
  intro d1 h1 d2 h2 p1 p2 ho1 ho2
  have hn := h d1 h1 d2 h2 ⟨p1, ho1⟩ ⟨p2, ho2⟩
  rw [ho1.2.1, ho2.2.1] at hn
  exact Option.some.inj hn

/-- C6, as stated, fails for the concurrent scanner: in the sample system
processes 7 and 8 both hold `/tmp/a`, and two runs on the same state under two
schedules return two different PIDs. -/
theorem getFileLockingPIDLinux_schedule_dependent :
    ValidSchedule (sampleOS "linux") "/tmp/a" [0, 1, 2, 3, 4] ∧
    ValidSchedule (sampleOS "linux") "/tmp/a" [1, 0, 2, 3, 4] ∧
    getFileLockingPIDLinux (sampleOS "linux") "/tmp/a" [0, 1, 2, 3, 4] = (8, none) ∧
    getFileLockingPIDLinux (sampleOS "linux") "/tmp/a" [1, 0, 2, 3, 4] = (7, none) := by
  decide

/-- C6, amended: the result of the sequential scanner is determined by the
outcome of opening the path and by the process list, so two runs on the same
state return the same result; two runs of the concurrent scanner on the same
state, under any two schedules, return the same result when `/proc` cannot be
listed or when all the entries that own the path have the same PID (in
particular when at most one entry owns it); and whenever two entries own the
path with different PIDs, two schedules exist under which the two runs return
different PIDs. -/
theorem scanner_idempotent (os : OS) (path : String) :
    (∀ (os2 : OS) processes, os2.openFile path = os.openFile path →
      getFileLockingPIDMacOS os2 path processes = getFileLockingPIDMacOS os path processes) ∧
    (∀ s1 s2 e, os.fs.readDir "/proc" = .error e →
      getFileLockingPIDLinux os path s1 = getFileLockingPIDLinux os path s2) ∧
    (∀ s1 s2 dirs, os.fs.readDir "/proc" = .ok dirs →
      ValidSchedule os path s1 → ValidSchedule os path s2 →
      (∀ d1 ∈ dirs, ∀ d2 ∈ dirs, ∀ p1 p2,
        ownsPath os.fs path d1 p1 → ownsPath os.fs path d2 p2 → p1 = p2) →
      getFileLockingPIDLinux os path s1 = getFileLockingPIDLinux os path s2) ∧
    (∀ dirs, os.fs.readDir "/proc" = .ok dirs →
      (∃ d1 ∈ dirs, ∃ d2 ∈ dirs, ∃ p1 p2,
        ownsPath os.fs path d1 p1 ∧ ownsPath os.fs path d2 p2 ∧ p1 ≠ p2) →
      ∃ s1 s2, ValidSchedule os path s1 ∧ ValidSchedule os path s2 ∧
        (getFileLockingPIDLinux os path s1).1 ≠ (getFileLockingPIDLinux os path s2).1) := by
  refine ⟨?_, ?_, ?_, ?_⟩
  · intro os2 processes hopen
    simp only [getFileLockingPIDMacOS, hopen]
  · intro s1 s2 e he
    simp [getFileLockingPIDLinux, he]
  · intro s1 s2 dirs hroot hs1 hs2 huniq
    have hres : ∀ s, getFileLockingPIDLinux os path s =
        (runSchedule (launchedTasks os path) s, none) := by
      intro s
      simp [getFileLockingPIDLinux, hroot]
    rw [hres s1, hres s2]
    by_cases hw : ∃ pid, some pid ∈ launchedTasks os path
    · obtain ⟨pid, hpid⟩ := hw
      have hall : ∀ q, some q ∈ launchedTasks os path → q = pid := by
        intro q hq
        obtain ⟨d1, hd1, ho1⟩ := (mem_launchedTasks_iff os path dirs hroot q).1 hq
        obtain ⟨d2, hd2, ho2⟩ := (mem_launchedTasks_iff os path dirs hroot pid).1 hpid
        exact huniq d1 hd1 d2 hd2 q pid ho1 ho2
      rw [runSchedule_unique _ s1 pid hs1 hpid hall, runSchedule_unique _ s2 pid hs2 hpid hall]
    · rw [runSchedule_zero _ s1 hw, runSchedule_zero _ s2 hw]
  · rintro dirs hroot ⟨d1, hd1, d2, hd2, p1, p2, ho1, ho2, hne⟩
    have hres : ∀ s, (getFileLockingPIDLinux os path s).1 =
        runSchedule (launchedTasks os path) s := by
      intro s
      simp [getFileLockingPIDLinux, hroot]
    obtain ⟨s1, hv1, hr1⟩ := exists_schedule_returning (launchedTasks os path) p1
      ((mem_launchedTasks_iff os path dirs hroot p1).2 ⟨d1, hd1, ho1⟩)
    obtain ⟨s2, hv2, hr2⟩ := exists_schedule_returning (launchedTasks os path) p2
      ((mem_launchedTasks_iff os path dirs hroot p2).2 ⟨d2, hd2, ho2⟩)
    refine ⟨s1, s2, hv1, hv2, ?_⟩
    rw [hres s1, hres s2, hr1, hr2]
    exact hne

theorem scanner_idempotent_witness :
    getFileLockingPIDLinux noProcOS "/tmp/b" [0, 1] = getFileLockingPIDLinux noProcOS "/tmp/b" [] ∧
    getFileLockingPIDLinux (sampleOS "linux") "/tmp/b" [0, 1, 2, 3, 4] =
      getFileLockingPIDLinux (sampleOS "linux") "/tmp/b" [4, 1, 3, 0, 2] ∧
    getFileLockingPIDMacOS (sampleOS "linux") "/tmp/b" sampleProcesses =
      getFileLockingPIDMacOS (sampleOS "darwin") "/tmp/b" sampleProcesses ∧
    ∃ s1 s2, ValidSchedule (sampleOS "linux") "/tmp/a" s1 ∧
      ValidSchedule (sampleOS "linux") "/tmp/a" s2 ∧
      (getFileLockingPIDLinux (sampleOS "linux") "/tmp/a" s1).1 ≠
        (getFileLockingPIDLinux (sampleOS "linux") "/tmp/a" s2).1 :=
  ⟨(scanner_idempotent noProcOS "/tmp/b").2.1 [0, 1] [] _ rfl,
    (scanner_idempotent (sampleOS "linux") "/tmp/b").2.2.1 [0, 1, 2, 3, 4] [4, 1, 3, 0, 2] _ rfl
      (by decide) (by decide) (owners_agree_of_names _ _ _ (by decide)),
    (scanner_idempotent (sampleOS "darwin") "/tmp/b").1 (sampleOS "linux") sampleProcesses rfl,
    (scanner_idempotent (sampleOS "linux") "/tmp/a").2.2.2 _ rfl
      ⟨⟨"7", true⟩, by decide, ⟨"8", true⟩, by decide, 7, 8, by decide, by decide, by decide⟩⟩

/-! ## The scanner's own descriptor -/

/-- C7, on the code: in the sample system no process holds `/tmp/c` before the
call, the file exists and its open succeeds, the process list contains the
scanning process 42, and the sequential scanner returns 42: the descriptor it
has just opened is reported as the owner.  Without process 42 in the list the
same call returns not-found. -/
theorem getFileLockingPIDMacOS_reports_itself :
    (sampleOS "darwin").stat "/tmp/c" = .ok false ∧
    (∀ q ∈ sampleProcesses, ¬ holdsPath (sampleOS "darwin").fs "/tmp/c" q.pid) ∧
    (getFileLockingPIDMacOS (sampleOS "darwin") "/tmp/c" sampleProcesses).2 = none ∧
    getFileLockingPIDMacOS (sampleOS "darwin") "/tmp/c" sampleProcesses = (42, none) ∧
    getFileLockingPIDMacOS (sampleOS "darwin") "/tmp/c"
      [⟨9, 1, "sshd"⟩, ⟨7, 1, "bash"⟩, ⟨8, 7, "Vim"⟩] = (0, none) := by
  decide

/-! ## Free-text arguments -/

/-- C10, on the code: `handleString` looks for the argument as a literal
substring, so `b.sh` and `b.+h` do not select the process whose executable is
`bash`, while the literal `as` and `BASH` do. -/
theorem handleString_literal_substring :
    handleString "b.sh" sampleProcesses = [] ∧ handleString "b.+h" sampleProcesses = [] ∧
    handleString "b.sh" [⟨7, 1, "bash"⟩] = [] ∧ handleString "b.+h" [⟨7, 1, "bash"⟩] = [] ∧
    handleString "as" sampleProcesses = [7] ∧ handleString "BASH" sampleProcesses = [7] := by
  decide

end Pfinder
